import Mathlib

/-!
Shallow embedding of the e-waste dataset preparation script
(`week1/.virtual_documents/Untitled.ipynb`).

The filesystem is modelled explicitly: a class directory is an association
list from file name to abstract file content (a `Nat` standing for the byte
contents), a split directory maps names to entries (plain files or class
subdirectories).  Image decoding and verification are external effects of
the imaging library, so they enter the model as boolean oracles: `verify`
says whether `Image.open(...).verify()` succeeds on a given content, and an
`Oracle` record supplies, for one iteration of the augmentation loop, the
random index chosen by `random.choice`, the value drawn by
`random.randint(10000,99999)`, whether the try-block raises, and the content
of the saved augmented image.
-/

namespace EwastePrep

abbrev Content := Nat

/-- A class directory: file name to content, in listing order. -/
abbrev Dir := List (String × Content)

/-- An entry of a split directory: a plain file or a class subdirectory. -/
inductive Entry
  | file (c : Content)
  | dir (d : Dir)
deriving DecidableEq, Repr

/-- A split directory (`train`, `val` or `test`): entries in listing order. -/
abbrev Split := List (String × Entry)

def Entry.isDir : Entry → Bool
  | .file _ => false
  | .dir _ => true

/-- `os.listdir` on a class directory: the file names, in listing order. -/
def listdirNames (d : Dir) : List String := d.map Prod.fst

/-- Lexicographic comparison of character lists: Python's `<=` on strings. -/
def charListLe : List Char → List Char → Bool
  | [], _ => true
  | _ :: _, [] => false
  | a :: as, b :: bs => if a < b then true else if b < a then false else charListLe as bs

/-- Python's string comparison, used by `sorted`. -/
def nameLe (a b : String) : Bool := charListLe a.data b.data

/-- `list_classes(base_path)`:
`sorted([d for d in os.listdir(base_path) if os.path.isdir(...)])`. -/
def list_classes (s : Split) : List String :=
  ((s.filter (fun e => e.2.isDir)).map Prod.fst).insertionSort
    (fun a b => nameLe a b = true)

/-- Resolving `os.path.join(base_path, cls)`: the class subdirectory named
`cls`, empty if absent. -/
def childDir (s : Split) (cls : String) : Dir :=
  match s.find? (fun e => e.1 == cls) with
  | some (_, Entry.dir d) => d
  | _ => []

/-- The suffixes accepted by `fname.lower().endswith(('jpg', 'jpeg', 'png'))`.
Note the source omits the dot. -/
def acceptedSuffixes : List String := ["jpg", "jpeg", "png"]

/-- `fname.lower()` as a character list. -/
def lowerChars (nm : String) : List Char := nm.data.map Char.toLower

/-- The extension test the source actually performs: a dot-less suffix check
on the lowercased file name. -/
def extOkCode (nm : String) : Bool :=
  acceptedSuffixes.any (fun sfx => sfx.data.isSuffixOf (lowerChars nm))

/-- The accepted extensions as the spec words them: `.jpg`, `.jpeg`, `.png`,
case-insensitive.  Used only to compare the spec's wording with the code. -/
def specAcceptedExtensions : List String := [".jpg", ".jpeg", ".png"]

/-- Spec-worded extension test (dotted), for refinement comparison only. -/
def extOkSpec (nm : String) : Bool :=
  specAcceptedExtensions.any (fun sfx => sfx.data.isSuffixOf (lowerChars nm))

/-- `count_images_in_classes(base_path)`: per class (in sorted order), the
number of files whose lowercased name ends with an accepted suffix. -/
def count_images_in_classes (s : Split) : List (String × Nat) :=
  (list_classes s).map
    (fun cls => (cls, ((childDir s cls).filter (fun f => extOkCode f.1)).length))

/-- The per-file decision of the cleanup pass: a file is kept iff its name
passes the suffix test and `Image.open` + `verify` succeed on its content. -/
def keepFile (verify : Content → Bool) (f : String × Content) : Bool :=
  if !extOkCode f.1 then false
  else verify f.2

/-- Cleanup of one class directory: every file failing `keepFile` is
`os.remove`d. -/
def cleanClassDir (verify : Content → Bool) (d : Dir) : Dir :=
  d.filter (keepFile verify)

/-- Writing back the contents of the class subdirectory named `cls`. -/
def updateClass (s : Split) (cls : String) (nd : Dir) : Split :=
  s.map (fun e => if e.1 = cls then (cls, Entry.dir nd) else e)

/-- `remove_corrupted_and_non_images(base_path)`: for each class of
`list_classes` in turn, delete the files of that class directory that fail
the suffix test or image verification. -/
def remove_corrupted_and_non_images (verify : Content → Bool) (s : Split) : Split :=
  (list_classes s).foldl
    (fun acc cls => updateClass acc cls (cleanClassDir verify (childDir acc cls))) s

/-- External randomness and imaging effects of one iteration of the
augmentation loop. -/
structure Oracle where
  pick : Nat
  rand : Nat
  fail : Bool
  content : Content
deriving DecidableEq, Repr

/-- `random.choice(images)`: the element at the (uniformly drawn) index. -/
def chosenSource (images : List String) (pick : Nat) : Option String :=
  images.get? (pick % images.length)

/-- `f"aug_{k}_{img_name}"`: the name of a saved augmented image. -/
def augName (k : Nat) (src : String) : String :=
  "aug_" ++ toString k ++ "_" ++ src

/-- The console line printed when the try-block of the augmentation loop
raises. -/
def errMsg (src : String) : String := "Error augmenting " ++ src

/-- `aug_img.save(path)`: overwrite the file if the name exists, else append
a new file to the listing. -/
def dirInsert (d : Dir) (nm : String) (c : Content) : Dir :=
  if d.any (fun f => f.1 == nm) then
    d.map (fun f => if f.1 = nm then (nm, c) else f)
  else d ++ [(nm, c)]

/-- The state carried by the augmentation loop: the class directory, the
console log, and (as ghost data) the trace of source images chosen. -/
structure AugState where
  dir : Dir
  log : List String
  srcTrace : List String
deriving DecidableEq, Repr

/-- One iteration of the body of the augmentation loop, after the
`random.choice` succeeded: on `o.fail` the exception is caught and printed,
otherwise the augmented image is saved under `augName`. -/
def augStep (images : List String) (st : AugState) (o : Oracle) : AugState :=
  match chosenSource images o.pick with
  | none => st
  | some src =>
    if o.fail then
      { st with log := st.log ++ [errMsg src], srcTrace := st.srcTrace ++ [src] }
    else
      { st with
          dir := dirInsert st.dir (augName (10000 + o.rand % 90000) src) o.content,
          srcTrace := st.srcTrace ++ [src] }

/-- Outcome of running the augmentation loop on a finite oracle supply:
normal exit, an uncaught `IndexError` from `random.choice` on an empty
listing, or oracle supply exhausted while the loop is still running. -/
inductive AugResult
  | done (st : AugState)
  | crashedIndexError (st : AugState)
  | fuelOut (st : AugState)
deriving DecidableEq, Repr

def AugResult.state : AugResult → AugState
  | .done st => st
  | .crashedIndexError st => st
  | .fuelOut st => st

/-- The `while len(os.listdir(class_path)) < target_count` loop.  The source
pool `images` is fixed: the source computes it once before the loop. -/
def augRun (images : List String) (target : Nat) : List Oracle → AugState → AugResult
  | [], st =>
    if st.dir.length < target then
      if images.isEmpty then .crashedIndexError st else .fuelOut st
    else .done st
  | o :: os, st =>
    if st.dir.length < target then
      if images.isEmpty then .crashedIndexError st
      else augRun images target os (augStep images st o)
    else .done st

/-- `augment_class_images(class_path, target_count)`: take the listing once,
then run the loop. -/
def augment_class_images (d : Dir) (target : Nat) (os : List Oracle) : AugResult :=
  augRun (listdirNames d) target os ⟨d, [], []⟩

/-- The body of the step-5 driver for one class:
`if current_count < TARGET_COUNT: augment_class_images(cls_path, TARGET_COUNT)`. -/
def step5ClassBody (d : Dir) (target : Nat) (os : List Oracle) : AugResult :=
  if d.length < target then augment_class_images d target os
  else .done ⟨d, [], []⟩

/-- The step-5 driver over the training split: each class directory is
augmented in turn; an uncaught exception aborts the remaining classes, and
an exhausted oracle supply models a loop still running. -/
def step5Split (target : Nat) (oss : String → List Oracle) : Split → Split
  | [] => []
  | (n, Entry.file c) :: rest => (n, Entry.file c) :: step5Split target oss rest
  | (n, Entry.dir d) :: rest =>
    match step5ClassBody d target (oss n) with
    | .done st => (n, Entry.dir st.dir) :: step5Split target oss rest
    | .crashedIndexError st => (n, Entry.dir st.dir) :: rest
    | .fuelOut st => (n, Entry.dir st.dir) :: rest

/-- The dataset root: the three split directories. -/
structure FS where
  train : Split
  val : Split
  test : Split

/-- Step 5 acts on the dataset: only paths under `TRAIN_DIR` are formed. -/
def step5FS (target : Nat) (oss : String → List Oracle) (fs : FS) : FS :=
  { fs with train := step5Split target oss fs.train }

/-! ### Basic facts about `dirInsert` (the model of `aug_img.save`) -/

theorem length_dirInsert_le (d : Dir) (nm : String) (c : Content) :
    (dirInsert d nm c).length ≤ d.length + 1 := by
  unfold dirInsert
  split
  · simp
  · simp

theorem le_length_dirInsert (d : Dir) (nm : String) (c : Content) :
    d.length ≤ (dirInsert d nm c).length := by
  unfold dirInsert
  split
  · simp
  · simp

theorem mem_dirInsert (d : Dir) (nm : String) (c : Content) (f : String × Content)
    (h : f ∈ dirInsert d nm c) : f ∈ d ∨ f.1 = nm := by
  unfold dirInsert at h
  split at h
  · rcases List.mem_map.mp h with ⟨g, hg, hfg⟩
    by_cases hgnm : g.1 = nm
    · right
      simp [hgnm] at hfg
      simp [← hfg]
    · left
      simp [hgnm] at hfg
      exact hfg ▸ hg
  · rcases List.mem_append.mp h with h' | h'
    · exact Or.inl h'
    · right
      simp at h'
      simp [h']

theorem mem_dirInsert_of_ne (d : Dir) (nm : String) (c : Content) (f : String × Content)
    (hf : f ∈ d) (hne : f.1 ≠ nm) : f ∈ dirInsert d nm c := by
  unfold dirInsert
  split
  · exact List.mem_map.mpr ⟨f, hf, by simp [hne]⟩
  · exact List.mem_append.mpr (Or.inl hf)

theorem listdirNames_map_replace (d : Dir) (nm : String) (c : Content) :
    listdirNames (d.map fun f => if f.1 = nm then (nm, c) else f) = listdirNames d := by
  unfold listdirNames
  rw [List.map_map]
  refine List.map_congr_left ?_
  intro f _
  by_cases hf : f.1 = nm <;> simp [hf]

theorem listdirNames_dirInsert (d : Dir) (nm : String) (c : Content) (n : String)
    (h : n ∈ listdirNames d) : n ∈ listdirNames (dirInsert d nm c) := by
  unfold dirInsert
  split
  · rw [listdirNames_map_replace]
    exact h
  · unfold listdirNames at h ⊢
    simp at h ⊢
    tauto

theorem nodup_listdirNames_dirInsert (d : Dir) (nm : String) (c : Content)
    (h : (listdirNames d).Nodup) : (listdirNames (dirInsert d nm c)).Nodup := by
  unfold dirInsert
  split
  · rw [listdirNames_map_replace]
    exact h
  · rename_i hnotin
    have hnm : nm ∉ d.map Prod.fst := by
      intro hmem
      rcases List.mem_map.mp hmem with ⟨g, hg, hgnm⟩
      exact absurd (List.any_eq_true.mpr ⟨g, hg, by simp [hgnm]⟩) hnotin
    unfold listdirNames at h ⊢
    rw [List.map_append]
    refine List.Nodup.append h (by simp) ?_
    intro a ha hb
    simp at hb
    exact hnm (hb ▸ ha)

/-! ### Facts about one iteration (`augStep`) and the loop (`augRun`) -/

theorem chosenSource_mem (images : List String) (p : Nat) (src : String)
    (h : chosenSource images p = some src) : src ∈ images := by
  unfold chosenSource at h
  exact List.get?_mem h

theorem augStep_dir_length (images : List String) (st : AugState) (o : Oracle) :
    st.dir.length ≤ (augStep images st o).dir.length ∧
      (augStep images st o).dir.length ≤ st.dir.length + 1 := by
  unfold augStep
  split
  · simp
  · split
    · simp
    · exact ⟨le_length_dirInsert _ _ _, length_dirInsert_le _ _ _⟩

theorem augStep_mem (images : List String) (st : AugState) (o : Oracle)
    (f : String × Content) (h : f ∈ (augStep images st o).dir) :
    f ∈ st.dir ∨
      ∃ k src, 10000 ≤ k ∧ k < 100000 ∧ src ∈ images ∧ f.1 = augName k src := by
  unfold augStep at h
  split at h
  · exact Or.inl h
  · rename_i src hsrc
    split at h
    · exact Or.inl h
    · simp only at h
      rcases mem_dirInsert _ _ _ _ h with h' | h'
      · exact Or.inl h'
      · refine Or.inr ⟨10000 + o.rand % 90000, src, by omega, ?_, chosenSource_mem _ _ _ hsrc, h'⟩
        have : o.rand % 90000 < 90000 := Nat.mod_lt _ (by omega)
        omega

theorem augStep_preserves (images : List String) (st : AugState) (o : Oracle)
    (f : String × Content) (hf : f ∈ st.dir)
    (hor : ∀ k src, f.1 ≠ augName k src) : f ∈ (augStep images st o).dir := by
  unfold augStep
  split
  · exact hf
  · split
    · exact hf
    · exact mem_dirInsert_of_ne _ _ _ _ hf (hor _ _)

theorem augStep_names (images : List String) (st : AugState) (o : Oracle) (n : String)
    (h : n ∈ listdirNames st.dir) : n ∈ listdirNames (augStep images st o).dir := by
  unfold augStep
  split
  · exact h
  · split
    · exact h
    · exact listdirNames_dirInsert _ _ _ _ h

theorem augStep_nodup (images : List String) (st : AugState) (o : Oracle)
    (h : (listdirNames st.dir).Nodup) : (listdirNames (augStep images st o).dir).Nodup := by
  unfold augStep
  split
  · exact h
  · split
    · exact h
    · exact nodup_listdirNames_dirInsert _ _ _ h

theorem augStep_trace (images : List String) (st : AugState) (o : Oracle) (s : String)
    (h : s ∈ (augStep images st o).srcTrace) : s ∈ st.srcTrace ∨ s ∈ images := by
  unfold augStep at h
  split at h
  · exact Or.inl h
  · rename_i src hsrc
    split at h <;>
    · simp only [List.mem_append, List.mem_singleton] at h
      rcases h with h | h
      · exact Or.inl h
      · exact Or.inr (h ▸ chosenSource_mem _ _ _ hsrc)

theorem augRun_done_target_le (images : List String) (target : Nat) :
    ∀ (os : List Oracle) (st st' : AugState),
      augRun images target os st = .done st' → target ≤ st'.dir.length
  | [], st, st', h => by
    unfold augRun at h
    split at h
    · split at h <;> simp at h
    · rename_i hge
      cases h
      omega
  | o :: os, st, st', h => by
    unfold augRun at h
    split at h
    · split at h
      · simp at h
      · exact augRun_done_target_le images target os _ st' h
    · rename_i hge
      cases h
      omega

theorem augRun_done_exact (images : List String) (target : Nat) :
    ∀ (os : List Oracle) (st st' : AugState), st.dir.length ≤ target →
      augRun images target os st = .done st' → st'.dir.length = target
  | [], st, st', hle, h => by
    unfold augRun at h
    split at h
    · split at h <;> simp at h
    · cases h
      omega
  | o :: os, st, st', hle, h => by
    unfold augRun at h
    split at h
    · split at h
      · simp at h
      · rename_i hlt _
        refine augRun_done_exact images target os _ st' ?_ h
        have := (augStep_dir_length images st o).2
        omega
    · cases h
      omega

theorem augRun_mem (images : List String) (target : Nat) :
    ∀ (os : List Oracle) (st : AugState) (f : String × Content),
      f ∈ (augRun images target os st).state.dir →
      f ∈ st.dir ∨
        ∃ k src, 10000 ≤ k ∧ k < 100000 ∧ src ∈ images ∧ f.1 = augName k src
  | [], st, f, h => by
    unfold augRun at h
    split at h
    · split at h <;> exact Or.inl h
    · exact Or.inl h
  | o :: os, st, f, h => by
    unfold augRun at h
    split at h
    · split at h
      · exact Or.inl h
      · rcases augRun_mem images target os _ f h with h' | h'
        · exact augStep_mem images st o f h'
        · exact Or.inr h'
    · exact Or.inl h

theorem augRun_preserves (images : List String) (target : Nat) :
    ∀ (os : List Oracle) (st : AugState) (f : String × Content), f ∈ st.dir →
      (∀ k src, f.1 ≠ augName k src) →
      f ∈ (augRun images target os st).state.dir
  | [], st, f, hf, hor => by
    unfold augRun
    split
    · split <;> exact hf
    · exact hf
  | o :: os, st, f, hf, hor => by
    unfold augRun
    split
    · split
      · exact hf
      · exact augRun_preserves images target os _ f (augStep_preserves images st o f hf hor) hor
    · exact hf

theorem augRun_names (images : List String) (target : Nat) :
    ∀ (os : List Oracle) (st : AugState) (n : String), n ∈ listdirNames st.dir →
      n ∈ listdirNames (augRun images target os st).state.dir
  | [], st, n, hn => by
    unfold augRun
    split
    · split <;> exact hn
    · exact hn
  | o :: os, st, n, hn => by
    unfold augRun
    split
    · split
      · exact hn
      · exact augRun_names images target os _ n (augStep_names images st o n hn)
    · exact hn

theorem augRun_nodup (images : List String) (target : Nat) :
    ∀ (os : List Oracle) (st : AugState), (listdirNames st.dir).Nodup →
      (listdirNames (augRun images target os st).state.dir).Nodup
  | [], st, hn => by
    unfold augRun
    split
    · split <;> exact hn
    · exact hn
  | o :: os, st, hn => by
    unfold augRun
    split
    · split
      · exact hn
      · exact augRun_nodup images target os _ (augStep_nodup images st o hn)
    · exact hn

theorem augRun_trace (images : List String) (target : Nat) :
    ∀ (os : List Oracle) (st : AugState) (s : String),
      s ∈ (augRun images target os st).state.srcTrace →
      s ∈ st.srcTrace ∨ s ∈ images
  | [], st, s, h => by
    unfold augRun at h
    split at h
    · split at h <;> exact Or.inl h
    · exact Or.inl h
  | o :: os, st, s, h => by
    unfold augRun at h
    split at h
    · split at h
      · exact Or.inl h
      · rcases augRun_trace images target os _ s h with h' | h'
        · exact augStep_trace images st o s h'
        · exact Or.inr h'
    · exact Or.inl h

/-! ### Length facts about `augName`: an augmented-file name has at least six
characters, so short original names can never collide with one. -/

theorem toDigitsCore_length_le (b : Nat) :
    ∀ (fuel n : Nat) (ds : List Char), ds.length ≤ (Nat.toDigitsCore b fuel n ds).length
  | 0, _, _ => le_refl _
  | fuel + 1, n, ds => by
    unfold Nat.toDigitsCore
    dsimp only
    split
    · simp
    · have := toDigitsCore_length_le b fuel (n / b) (Nat.digitChar (n % b) :: ds)
      simp at this
      omega

theorem succ_length_le_toDigitsCore (b fuel n : Nat) (ds : List Char) (h : fuel ≠ 0) :
    ds.length + 1 ≤ (Nat.toDigitsCore b fuel n ds).length := by
  cases fuel with
  | zero => exact absurd rfl h
  | succ fuel =>
    unfold Nat.toDigitsCore
    dsimp only
    split
    · simp
    · have := toDigitsCore_length_le b fuel (n / b) (Nat.digitChar (n % b) :: ds)
      simp at this
      omega

theorem one_le_length_repr (k : Nat) : 1 ≤ (Nat.repr k).length := by
  show 1 ≤ (Nat.toDigits 10 k).asString.length
  have hlen : (Nat.toDigits 10 k).asString.length = (Nat.toDigits 10 k).length := rfl
  rw [hlen]
  unfold Nat.toDigits
  have := succ_length_le_toDigitsCore 10 (k + 1) k [] (by omega)
  simpa using this

theorem six_le_length_augName (k : Nat) (src : String) : 6 ≤ (augName k src).length := by
  unfold augName
  simp only [String.length_append]
  have h1 : (toString k).length = (Nat.repr k).length := rfl
  have h2 := one_le_length_repr k
  have h3 : ("aug_" : String).length = 4 := rfl
  have h4 : ("_" : String).length = 1 := rfl
  omega

theorem ne_augName_of_length_lt (nm : String) (h : nm.length < 6) (k : Nat)
    (src : String) : nm ≠ augName k src := by
  intro he
  have := six_le_length_augName k src
  rw [← he] at this
  omega

/-! ### The cleanup pass: every class directory of the result is a filtered
directory, so every surviving file passed both checks. -/

theorem keepFile_eq_true (verify : Content → Bool) (f : String × Content) :
    keepFile verify f = true ↔ extOkCode f.1 = true ∧ verify f.2 = true := by
  unfold keepFile
  by_cases h : extOkCode f.1 <;> simp [h]

theorem mem_list_classes (s : Split) (n : String) (d : Dir)
    (h : (n, Entry.dir d) ∈ s) : n ∈ list_classes s := by
  unfold list_classes
  rw [(List.perm_insertionSort _ _).mem_iff]
  exact List.mem_map.mpr
    ⟨(n, Entry.dir d), List.mem_filter.mpr ⟨h, by simp [Entry.isDir]⟩, rfl⟩

theorem clean_foldl_inv (verify : Content → Bool) :
    ∀ (L : List String) (acc : Split),
      (∀ n d, (n, Entry.dir d) ∈ acc → n ∉ L → ∃ d₀, d = cleanClassDir verify d₀) →
      ∀ n d,
        (n, Entry.dir d) ∈
          L.foldl (fun a cls => updateClass a cls (cleanClassDir verify (childDir a cls))) acc →
        ∃ d₀, d = cleanClassDir verify d₀
  | [], acc, hacc, n, d, hmem => hacc n d hmem (by simp)
  | c :: L', acc, hacc, n, d, hmem => by
    rw [List.foldl_cons] at hmem
    refine clean_foldl_inv verify L' _ ?_ n d hmem
    intro m e hme hmL
    unfold updateClass at hme
    rcases List.mem_map.mp hme with ⟨g, hg, hge⟩
    by_cases hgc : g.1 = c
    · rw [if_pos hgc] at hge
      injection hge with hm he
      injection he with he
      exact ⟨childDir acc c, he.symm⟩
    · rw [if_neg hgc] at hge
      refine hacc m e (hge ▸ hg) ?_
      intro hmem'
      rcases List.mem_cons.mp hmem' with h | h
      · rw [hge] at hgc
        exact hgc h
      · exact hmL h

/-! ### Order facts for `sorted` (modelled by insertion sort under Python's
lexicographic string comparison). -/

theorem charListLe_total : ∀ (l₁ l₂ : List Char),
    charListLe l₁ l₂ = true ∨ charListLe l₂ l₁ = true
  | [], l₂ => by left; rfl
  | a :: as, [] => by right; rfl
  | a :: as, b :: bs => by
    unfold charListLe
    rcases lt_trichotomy a b with h | h | h
    · left
      simp [h]
    · subst h
      simp [lt_irrefl]
      exact charListLe_total as bs
    · right
      simp [h]

theorem charListLe_trans : ∀ (l₁ l₂ l₃ : List Char),
    charListLe l₁ l₂ = true → charListLe l₂ l₃ = true → charListLe l₁ l₃ = true
  | [], _, _, _, _ => rfl
  | a :: as, [], l₃, h₁, _ => by simp [charListLe] at h₁
  | a :: as, b :: bs, [], _, h₂ => by simp [charListLe] at h₂
  | a :: as, b :: bs, c :: cs, h₁, h₂ => by
    unfold charListLe at h₁ h₂ ⊢
    rcases lt_trichotomy a b with hab | hab | hab
    · rcases lt_trichotomy b c with hbc | hbc | hbc
      · simp [lt_trans hab hbc]
      · subst hbc
        simp [hab]
      · rw [if_neg (lt_asymm hbc), if_pos hbc] at h₂
        exact absurd h₂ (by simp)
    · subst hab
      rcases lt_trichotomy a c with hac | hac | hac
      · simp [hac]
      · subst hac
        rw [if_neg (lt_irrefl a), if_neg (lt_irrefl a)] at h₁ h₂ ⊢
        exact charListLe_trans as bs cs h₁ h₂
      · rw [if_neg (lt_asymm hac), if_pos hac] at h₂
        exact absurd h₂ (by simp)
    · rw [if_neg (lt_asymm hab), if_pos hab] at h₁
      exact absurd h₁ (by simp)

theorem list_classes_sorted (s : Split) :
    (list_classes s).Pairwise (fun a b => nameLe a b = true) := by
  unfold list_classes
  haveI htot : IsTotal String (fun a b => nameLe a b = true) :=
    ⟨fun a b => charListLe_total a.data b.data⟩
  haveI htrans : IsTrans String (fun a b => nameLe a b = true) :=
    ⟨fun a b c => charListLe_trans a.data b.data c.data⟩
  exact List.sorted_insertionSort (fun a b => nameLe a b = true)
    ((s.filter (fun e => e.2.isDir)).map Prod.fst)

theorem mem_list_classes_iff (s : Split) (n : String) :
    n ∈ list_classes s ↔ ∃ d, (n, Entry.dir d) ∈ s := by
  constructor
  · intro h
    unfold list_classes at h
    rw [(List.perm_insertionSort _ _).mem_iff] at h
    rcases List.mem_map.mp h with ⟨e, he, hen⟩
    rcases List.mem_filter.mp he with ⟨hes, hdir⟩
    rcases e with ⟨m, c⟩
    cases c with
    | file c => simp [Entry.isDir] at hdir
    | dir d =>
      refine ⟨d, ?_⟩
      cases hen
      exact hes
  · rintro ⟨d, hd⟩
    exact mem_list_classes s n d hd

/-! ### Named concrete file names used in scenarios -/

def aJpg : String := "a.jpg"

def bJpg : String := "b.jpg"

def cJpg : String := "c.jpg"

def xJpg : String := "x.jpg"

def yPng : String := "y.png"

def badTxt : String := "notes.txt"

def imgjpgName : String := "imgjpg"

def clsName : String := "cls"

/-! ### Claim C1 -/

/-- C1 (counterexample): the claim that after cleanup every remaining file has
an accepted *extension* `.jpg`/`.jpeg`/`.png` is false: a valid image named
`imgjpg` (no dot) survives the cleanup pass because the source tests the
dot-less suffix `jpg`, yet it has none of the accepted extensions. -/
theorem cleanup_valid_image_without_dotted_extension_survives :
    (clsName, Entry.dir [(imgjpgName, 0)]) ∈
      remove_corrupted_and_non_images (fun _ => true)
        [(clsName, Entry.dir [(imgjpgName, 0)])] ∧
    extOkSpec imgjpgName = false := by
  decide

/-- C1 (amended): for every split directory, after the cleanup pass, every
file remaining in every class subdirectory has a lowercased name ending in
`jpg`, `jpeg` or `png` (dot not required, exactly the test the source
performs) and passes image verification; any file failing either condition
has been deleted. -/
theorem cleanup_keeps_only_suffix_passing_verified_files :
    ∀ (verify : Content → Bool) (s : Split) (n : String) (d : Dir),
      (n, Entry.dir d) ∈ remove_corrupted_and_non_images verify s →
      ∀ f ∈ d, extOkCode f.1 = true ∧ verify f.2 = true := by
  intro verify s n d hmem f hf
  unfold remove_corrupted_and_non_images at hmem
  rcases clean_foldl_inv verify (list_classes s) s
      (fun m e hme hnot => absurd (mem_list_classes s m e hme) hnot) n d hmem with
    ⟨d₀, rfl⟩
  unfold cleanClassDir at hf
  rcases List.mem_filter.mp hf with ⟨_, hkeep⟩
  exact (keepFile_eq_true verify f).mp hkeep

def c1verify : Content → Bool := fun c => c != 9

def c1split : Split := [(clsName, Entry.dir [(xJpg, 3), (badTxt, 4), (yPng, 9)])]

theorem cleanup_keeps_only_suffix_passing_verified_files_witness :
    extOkCode xJpg = true ∧ c1verify 3 = true :=
  cleanup_keeps_only_suffix_passing_verified_files c1verify c1split clsName
    [(xJpg, 3)] (by decide) (xJpg, 3) (by decide)

/-! ### Claim C2 -/

def c2dir : Dir := [(aJpg, 1)]

def c2o1 : Oracle := ⟨0, 0, false, 100⟩

/-- C2 (counterexample): in the call `augment_class_images c2dir 3`, the first
iteration creates `aug_10000_a.jpg`, which then appears in the directory
listing; yet no second-iteration oracle can make it the chosen source of the
second iteration — the source pool was snapshotted before the loop. -/
theorem aug_earlier_created_file_never_chosen_later :
    augName 10000 aJpg ∈
      listdirNames (augStep (listdirNames c2dir) ⟨c2dir, [], []⟩ c2o1).dir ∧
    ¬ ∃ o : Oracle, (augment_class_images c2dir 3 [c2o1, o]).state.srcTrace
        = [aJpg, augName 10000 aJpg] := by
  constructor
  · decide
  · rintro ⟨⟨p, r, fl, c⟩, h⟩
    have hstate : ∀ (images : List String) (target : Nat) (st : AugState),
        (augRun images target [] st).state = st := by
      intro images target st
      unfold augRun
      split
      · split <;> rfl
      · rfl
    have hstep : ∀ (st : AugState) (o : Oracle),
        (augStep [aJpg] st o).srcTrace = st.srcTrace ++ [aJpg] := by
      intro st o
      unfold augStep
      have hcs : chosenSource [aJpg] o.pick = some aJpg := by
        simp [chosenSource, Nat.mod_one]
      rw [hcs]
      by_cases hf : o.fail <;> simp [hf]
    have h1 : augment_class_images c2dir 3 [c2o1, ⟨p, r, fl, c⟩]
        = augRun [aJpg] 3 [⟨p, r, fl, c⟩]
            ⟨[(aJpg, 1), (augName 10000 aJpg, 100)], [], [aJpg]⟩ := by
      show augRun [aJpg] 3 (c2o1 :: [⟨p, r, fl, c⟩]) ⟨c2dir, [], []⟩ = _
      conv_lhs => rw [augRun]
      rw [if_pos (by decide), if_neg (by decide)]
      rw [show augStep [aJpg] ⟨c2dir, [], []⟩ c2o1
          = ⟨[(aJpg, 1), (augName 10000 aJpg, 100)], [], [aJpg]⟩ from by decide]
    have h2 : augRun [aJpg] 3 [⟨p, r, fl, c⟩]
          ⟨[(aJpg, 1), (augName 10000 aJpg, 100)], [], [aJpg]⟩
        = augRun [aJpg] 3 []
            (augStep [aJpg] ⟨[(aJpg, 1), (augName 10000 aJpg, 100)], [], [aJpg]⟩
              ⟨p, r, fl, c⟩) := by
      conv_lhs => rw [augRun]
      rw [if_pos (by decide), if_neg (by decide)]
    rw [h1, h2, hstate, hstep] at h
    exact absurd h (by decide)

/-- C2 (amended): every source image chosen during a call of
`augment_class_images` comes from the directory listing taken once at the
start of the call; files created during the call are never selected as
sources (the loop condition re-reads the listing, but the source pool does
not). -/
theorem aug_sources_come_from_initial_listing :
    ∀ (d : Dir) (target : Nat) (os : List Oracle) (s : String),
      s ∈ (augment_class_images d target os).state.srcTrace →
      s ∈ listdirNames d := by
  intro d target os s h
  rcases augRun_trace (listdirNames d) target os ⟨d, [], []⟩ s h with h' | h'
  · simp at h'
  · exact h'

theorem aug_sources_come_from_initial_listing_witness :
    aJpg ∈ listdirNames [(aJpg, 1)] :=
  aug_sources_come_from_initial_listing [(aJpg, 1)] 2 [⟨0, 5, false, 3⟩] aJpg
    (by decide)

/-! ### Claim C3 -/

/-- C3: whenever the step-5 body for one training class terminates normally,
the class directory holds at least the target count of files; no file name
present before has been removed; every original file (one whose name is not
of the augmented form `aug_<k>_<src>`) is present unchanged; and every file
of the result is either one of the initial files or carries an
augmented-form name. -/
theorem step5_reaches_target_adding_only_synthetic :
    ∀ (d : Dir) (target : Nat) (os : List Oracle) (st' : AugState),
      step5ClassBody d target os = .done st' →
      target ≤ st'.dir.length ∧
      (∀ f ∈ d, f.1 ∈ listdirNames st'.dir) ∧
      (∀ f ∈ d, (∀ k src, f.1 ≠ augName k src) → f ∈ st'.dir) ∧
      (∀ f ∈ st'.dir, f ∈ d ∨ ∃ k src, f.1 = augName k src) := by
  intro d target os st' h
  unfold step5ClassBody at h
  split at h
  · unfold augment_class_images at h
    refine ⟨augRun_done_target_le _ _ _ _ _ h, ?_, ?_, ?_⟩
    · intro f hf
      have hn := augRun_names (listdirNames d) target os ⟨d, [], []⟩ f.1
        (List.mem_map.mpr ⟨f, hf, rfl⟩)
      rw [h] at hn
      exact hn
    · intro f hf hne
      have hp := augRun_preserves (listdirNames d) target os ⟨d, [], []⟩ f hf hne
      rw [h] at hp
      exact hp
    · intro f hf
      have hmem : f ∈ (augRun (listdirNames d) target os ⟨d, [], []⟩).state.dir := by
        rw [h]
        exact hf
      rcases augRun_mem _ _ os _ f hmem with h' | ⟨k, src, _, _, _, hname⟩
      · exact Or.inl h'
      · exact Or.inr ⟨k, src, hname⟩
  · rename_i hge
    injection h with h
    subst h
    exact ⟨by show target ≤ List.length d; omega, fun f hf => List.mem_map.mpr ⟨f, hf, rfl⟩,
      fun f hf _ => hf, fun f hf => Or.inl hf⟩

theorem step5_reaches_target_adding_only_synthetic_witness :
    2 ≤ (AugState.mk [(bJpg, 2), (augName 10001 bJpg, 8)] [] [bJpg]).dir.length ∧
    (bJpg, (2 : Content)) ∈
      (AugState.mk [(bJpg, 2), (augName 10001 bJpg, 8)] [] [bJpg]).dir := by
  have h := step5_reaches_target_adding_only_synthetic [(bJpg, 2)] 2
    [⟨0, 1, false, 8⟩] ⟨[(bJpg, 2), (augName 10001 bJpg, 8)], [], [bJpg]⟩ (by decide)
  exact ⟨h.1, h.2.2.1 (bJpg, 2) (by decide)
    (fun k src => ne_augName_of_length_lt bJpg (by decide) k src)⟩

/-! ### Claim C4 -/

/-- C4: the augmentation step touches only the training split: the validation
and test splits — and hence their per-class image counts — are identical
before and after step 5 runs. -/
theorem step5_preserves_val_and_test_splits :
    ∀ (target : Nat) (oss : String → List Oracle) (fs : FS),
      (step5FS target oss fs).val = fs.val ∧
      (step5FS target oss fs).test = fs.test ∧
      count_images_in_classes (step5FS target oss fs).val
        = count_images_in_classes fs.val ∧
      count_images_in_classes (step5FS target oss fs).test
        = count_images_in_classes fs.test :=
  fun _ _ _ => ⟨rfl, rfl, rfl, rfl⟩

/-! ### Claim C5 -/

/-- C5: the keys of the mapping returned by `count_images_in_classes` are
exactly the subdirectory names of the split directory, in sorted order
(Python's lexicographic string order); the computation is a pure function of
the filesystem value. -/
theorem count_mapping_keys_are_sorted_subdir_names :
    ∀ (s : Split),
      (count_images_in_classes s).map Prod.fst = list_classes s ∧
      (list_classes s).Pairwise (fun a b => nameLe a b = true) ∧
      (∀ n, n ∈ list_classes s ↔ ∃ d, (n, Entry.dir d) ∈ s) := by
  intro s
  refine ⟨?_, list_classes_sorted s, fun n => mem_list_classes_iff s n⟩
  unfold count_images_in_classes
  rw [List.map_map]
  exact List.map_id _

/-! ### Claim C6 -/

def c6dir : Dir := [(aJpg, 1), (bJpg, 2), (cJpg, 3)]

/-- C6: starting from three valid `.jpg` files with target count 5, any
normally terminating augmentation call ends with exactly 5 files: the three
originals unchanged, and (names being distinct) two new files whose names
have the form `aug_<k>_<original>` with `k` a five-digit random number and
`<original>` one of the initial file names. -/
theorem three_jpgs_target_five_scenario :
    ∀ (os : List Oracle) (st' : AugState),
      augment_class_images c6dir 5 os = .done st' →
      st'.dir.length = 5 ∧
      (∀ f ∈ c6dir, f ∈ st'.dir) ∧
      (∀ f ∈ st'.dir, f ∈ c6dir ∨
        ∃ k src, 10000 ≤ k ∧ k < 100000 ∧ src ∈ listdirNames c6dir ∧
          f.1 = augName k src) ∧
      (listdirNames st'.dir).Nodup := by
  intro os st' h
  unfold augment_class_images at h
  refine ⟨augRun_done_exact _ _ os _ st' (by decide) h, ?_, ?_, ?_⟩
  · intro f hf
    have hne : ∀ k src, f.1 ≠ augName k src := by
      refine ne_augName_of_length_lt f.1 ?_
      simp only [c6dir, List.mem_cons, List.not_mem_nil, or_false] at hf
      rcases hf with rfl | rfl | rfl <;> decide
    have hp := augRun_preserves (listdirNames c6dir) 5 os ⟨c6dir, [], []⟩ f hf hne
    rw [h] at hp
    exact hp
  · intro f hf
    have hmem : f ∈ (augRun (listdirNames c6dir) 5 os ⟨c6dir, [], []⟩).state.dir := by
      rw [h]
      exact hf
    rcases augRun_mem _ _ os _ f hmem with h' | ⟨k, src, hk1, hk2, hsrc, hname⟩
    · exact Or.inl h'
    · exact Or.inr ⟨k, src, hk1, hk2, hsrc, hname⟩
  · have hn := augRun_nodup (listdirNames c6dir) 5 os ⟨c6dir, [], []⟩ (by decide)
    rw [h] at hn
    exact hn

theorem three_jpgs_target_five_scenario_witness :
    (AugState.mk
      [(aJpg, 1), (bJpg, 2), (cJpg, 3),
        (augName 10000 aJpg, 100), (augName 10001 bJpg, 101)] [] [aJpg, bJpg]).dir.length
      = 5 ∧
    (cJpg, (3 : Content)) ∈
      (AugState.mk
        [(aJpg, 1), (bJpg, 2), (cJpg, 3),
          (augName 10000 aJpg, 100), (augName 10001 bJpg, 101)] [] [aJpg, bJpg]).dir := by
  have h := three_jpgs_target_five_scenario [⟨0, 0, false, 100⟩, ⟨1, 1, false, 101⟩]
    ⟨[(aJpg, 1), (bJpg, 2), (cJpg, 3),
        (augName 10000 aJpg, 100), (augName 10001 bJpg, 101)], [], [aJpg, bJpg]⟩
    (by decide)
  exact ⟨h.1, h.2.1 (cJpg, 3) (by decide)⟩

/-! ### Claim C7 -/

/-- C7: a failing body (decode, transform or save error) is caught: it leaves
the directory unchanged and appends the diagnostic line to the console log;
the loop then simply continues with the next iteration; and a normal exit of
the loop happens only once the directory's file count has reached the
target. -/
theorem aug_per_image_errors_caught_logged_loop_continues :
    (∀ (images : List String) (st : AugState) (o : Oracle) (src : String),
        chosenSource images o.pick = some src → o.fail = true →
        (augStep images st o).dir = st.dir ∧
        (augStep images st o).log = st.log ++ [errMsg src]) ∧
    (∀ (images : List String) (target : Nat) (o : Oracle) (os : List Oracle)
        (st : AugState),
        st.dir.length < target → images ≠ [] →
        augRun images target (o :: os) st
          = augRun images target os (augStep images st o)) ∧
    (∀ (images : List String) (target : Nat) (os : List Oracle) (st st' : AugState),
        augRun images target os st = .done st' → target ≤ st'.dir.length) := by
  refine ⟨?_, ?_, ?_⟩
  · intro images st o src hsrc hfail
    unfold augStep
    rw [hsrc]
    simp [hfail]
  · intro images target o os st hlt hne
    rw [augRun]
    rw [if_pos hlt, if_neg (by simp [List.isEmpty_iff, hne])]
  · exact fun images target os st st' => augRun_done_target_le images target os st st'

theorem aug_per_image_errors_caught_logged_loop_continues_witness :
    ((augStep [aJpg] ⟨[(aJpg, 1)], [], []⟩ ⟨0, 0, true, 0⟩).dir = [(aJpg, 1)] ∧
      (augStep [aJpg] ⟨[(aJpg, 1)], [], []⟩ ⟨0, 0, true, 0⟩).log
        = [] ++ [errMsg aJpg]) ∧
    augRun [aJpg] 2 [⟨0, 0, true, 0⟩] ⟨[(aJpg, 1)], [], []⟩
      = augRun [aJpg] 2 [] (augStep [aJpg] ⟨[(aJpg, 1)], [], []⟩ ⟨0, 0, true, 0⟩) ∧
    2 ≤ (AugState.mk [(aJpg, 1), (augName 10000 aJpg, 9)] [] [aJpg]).dir.length := by
  refine ⟨?_, ?_, ?_⟩
  · exact aug_per_image_errors_caught_logged_loop_continues.1 [aJpg]
      ⟨[(aJpg, 1)], [], []⟩ ⟨0, 0, true, 0⟩ aJpg (by decide) rfl
  · exact aug_per_image_errors_caught_logged_loop_continues.2.1 [aJpg] 2
      ⟨0, 0, true, 0⟩ [] ⟨[(aJpg, 1)], [], []⟩ (by decide) (by decide)
  · exact aug_per_image_errors_caught_logged_loop_continues.2.2 [aJpg] 2
      [⟨0, 0, false, 9⟩] ⟨[(aJpg, 1)], [], []⟩
      ⟨[(aJpg, 1), (augName 10000 aJpg, 9)], [], [aJpg]⟩ (by decide)

/-! ### Claim C8 -/

/-- C8: calling augmentation on a non-empty class directory already at or
above the target count is a no-op, not an error: the loop body never
executes (empty source trace, empty log) and the directory is returned
unchanged through a normal exit. -/
theorem aug_noop_when_target_already_met :
    ∀ (d : Dir) (target : Nat) (os : List Oracle),
      d ≠ [] → target ≤ d.length →
      augment_class_images d target os = .done ⟨d, [], []⟩ := by
  intro d target os hne hle
  cases os with
  | nil =>
    unfold augment_class_images
    rw [augRun]
    rw [if_neg (by show ¬ (List.length d < target); omega)]
  | cons o os' =>
    unfold augment_class_images
    rw [augRun]
    rw [if_neg (by show ¬ (List.length d < target); omega)]

theorem aug_noop_when_target_already_met_witness :
    augment_class_images [(aJpg, 1)] 1 [] = .done ⟨[(aJpg, 1)], [], []⟩ :=
  aug_noop_when_target_already_met [(aJpg, 1)] 1 [] (by decide) (by decide)

/-! ### Claim C9 -/

/-- C9: calling augmentation on an empty class directory with a positive
target raises an uncaught `IndexError` from `random.choice` on the empty
listing (the selection happens outside the try-block): the run aborts with
nothing caught or logged. -/
theorem aug_empty_dir_uncaught_index_error :
    ∀ (target : Nat) (os : List Oracle), 0 < target →
      augment_class_images [] target os = .crashedIndexError ⟨[], [], []⟩ := by
  intro target os h
  cases os with
  | nil =>
    unfold augment_class_images
    rw [augRun]
    rw [if_pos (by show 0 < target; exact h), if_pos (by decide)]
  | cons o os' =>
    unfold augment_class_images
    rw [augRun]
    rw [if_pos (by show 0 < target; exact h), if_pos (by decide)]

theorem aug_empty_dir_uncaught_index_error_witness :
    augment_class_images [] 5 [] = .crashedIndexError ⟨[], [], []⟩ :=
  aug_empty_dir_uncaught_index_error 5 [] (by decide)

/-! ### Claim C10 -/

/-- C10: if a class directory starts strictly below the target and the
augmentation loop exits normally, the directory holds exactly the target
number of files — each iteration adds at most one file and the count is
re-checked before every iteration, so the target is never overshot. -/
theorem aug_normal_exit_exactly_target :
    ∀ (d : Dir) (target : Nat) (os : List Oracle) (st' : AugState),
      d.length < target → augment_class_images d target os = .done st' →
      st'.dir.length = target := by
  intro d target os st' hlt h
  exact augRun_done_exact (listdirNames d) target os ⟨d, [], []⟩ st'
    (by show List.length d ≤ target; omega) h

theorem aug_normal_exit_exactly_target_witness :
    (AugState.mk [(aJpg, 1), (augName 10000 aJpg, 77)] [] [aJpg]).dir.length = 2 :=
  aug_normal_exit_exactly_target [(aJpg, 1)] 2 [⟨0, 0, false, 77⟩]
    ⟨[(aJpg, 1), (augName 10000 aJpg, 77)], [], [aJpg]⟩ (by decide) (by decide)

end EwastePrep
